import Mathlib

/-!
Verification development for the arXiv scraping pipeline
(src/scraping_arxiv.py).  The Python source is shallowly embedded:
pure helpers become Lean functions on lists of characters, network or
filesystem effects become explicit parameters (oracles) and event
traces, and concurrent counter updates become an interleaving
semantics.  Each section names the Python function it embeds.
-/

/-! ## Character and string utilities (Python str semantics) -/

/-- Whitespace characters removed by the Python method str.strip
    (ASCII subset, which covers the ids handled by the scraper). -/
def isPySpace (c : Char) : Bool :=
  c = ' ' || c = '\t' || c = '\n' || c = '\r' || c = '\x0b' || c = '\x0c'

/-- A word character for the regex class backslash-w (ASCII subset). -/
def isWordChar (c : Char) : Bool :=
  c.isAlpha || c.isDigit || c = '_'

/-- Python str.strip: drop leading and trailing whitespace. -/
def pyStrip (cs : List Char) : List Char :=
  ((cs.dropWhile isPySpace).reverse.dropWhile isPySpace).reverse

/-- String-level wrapper of pyStrip. -/
def pyStripStr (s : String) : String :=
  String.mk (pyStrip s.data)

/-- The literal pattern removed by arxiv_id.replace in format_yymm_id. -/
def arXivColonPat : List Char :=
  "arXiv:".data

/-- One step of Python str.replace with an empty replacement: scan left to
    right, removing every non-overlapping occurrence of the pattern
    arXiv: (fuel-indexed to keep the recursion structural; the fuel is
    always the length of the list, which strictly bounds the recursion). -/
def removeArXivAux : Nat → List Char → List Char
  | _, [] => []
  | 0, cs => cs
  | fuel + 1, c :: cs =>
    if arXivColonPat.isPrefixOf (c :: cs) then
      removeArXivAux fuel ((c :: cs).drop arXivColonPat.length)
    else
      c :: removeArXivAux fuel cs

/-- Python: arxiv_id.replace of the arXiv: prefix pattern with the
    empty string (all occurrences). -/
def removeArXiv (cs : List Char) : List Char :=
  removeArXivAux cs.length cs

/-- Python: re.sub of the pattern v backslash-d plus dollar with the empty
    string.  The anchored pattern matches exactly a trailing letter v
    followed by a nonempty run of digits; nothing else. -/
def subVSuffix (cs : List Char) : List Char :=
  if (cs.reverse.takeWhile Char.isDigit).isEmpty then cs
  else
    match cs.reverse.drop (cs.reverse.takeWhile Char.isDigit).length with
    | 'v' :: rest => rest.reverse
    | _ => cs

/-- Split at the first dot, mirroring Python split with maxsplit 1:
    some (before, after) when a dot occurs, none otherwise. -/
def splitFirstDot : List Char → Option (List Char × List Char)
  | [] => none
  | c :: cs =>
    if c = '.' then some ([], cs)
    else
      match splitFirstDot cs with
      | some (a, b) => some (c :: a, b)
      | none => none

/-- Embedding of format_yymm_id (source lines 55-61): strip any arXiv:
    occurrences, strip whitespace, drop a trailing revision suffix vK,
    and replace the first dot by a dash. -/
def format_yymm_id (cs : List Char) : List Char :=
  let s1 := removeArXiv cs
  let s2 := pyStrip s1
  let s3 := subVSuffix s2
  match splitFirstDot s3 with
  | some (a, b) => a ++ '-' :: b
  | none => s3

/-- String-level wrapper of format_yymm_id. -/
def format_yymm_id_str (s : String) : String :=
  String.mk (format_yymm_id s.data)

/-! ## Id validity (_is_valid_arxiv_id, source lines 344-349) -/

/-- The month alternation of the validity regex: 01 to 09 or 10 to 12. -/
def matchMonthPair (c d : Char) : Bool :=
  (c = '0' && '1' ≤ d && d ≤ '9') || (c = '1' && (d = '0' || d = '1' || d = '2'))

/-- The anchored tail of the validity regex: two digits, a month pair,
    a literal dot, then four or five digits running to the end. -/
def matchTailIdShape : List Char → Bool
  | y1 :: y2 :: m1 :: m2 :: '.' :: rest =>
    y1.isDigit && y2.isDigit && matchMonthPair m1 m2 &&
      rest.all Char.isDigit && decide (4 ≤ rest.length) && decide (rest.length ≤ 5)
  | _ => false

/-- Embedding of _is_valid_arxiv_id: strip a trailing revision suffix,
    then match the id shape with an optional word-character prefix ending
    in a dot.  Since a word character is never a dot, the optional prefix
    group can only consume the maximal leading word run plus one dot,
    which is what the backtracking regex does. -/
def is_valid_arxiv_id (cs : List Char) : Bool :=
  if cs.isEmpty then false
  else
    let base := subVSuffix cs
    matchTailIdShape base ||
      (let run := base.takeWhile isWordChar
       !run.isEmpty &&
         (match base.drop run.length with
          | '.' :: rest => matchTailIdShape rest
          | _ => false))

/-- String-level wrapper of is_valid_arxiv_id. -/
def is_valid_arxiv_id_str (s : String) : Bool :=
  is_valid_arxiv_id s.data

/-! ## URL id extraction (_extract_arxiv_id_comprehensive, lines 326-342) -/

/-- Case-insensitive character comparison against a lowercase pattern
    character (the regexes are compiled with IGNORECASE). -/
def ciCharEq (p c : Char) : Bool :=
  p = c || (p.isLower && c.toNat + 32 = p.toNat)

/-- Case-insensitive prefix test of a lowercase pattern. -/
def ciIsPrefix : List Char → List Char → Bool
  | [], _ => true
  | _ :: _, [] => false
  | p :: ps, c :: cs => ciCharEq p c && ciIsPrefix ps cs

/-- Case-sensitive substring containment, mirroring the Python operator
    in on strings (used for the arxiv.org guard). -/
def containsSub (pat : List Char) : List Char → Bool
  | [] => pat.isEmpty
  | c :: cs => pat.isPrefixOf (c :: cs) || containsSub pat cs

/-- Attempt the URL regex at the current position: the lowercase pattern
    head (for example arxiv.org/abs/) must match case-insensitively and
    must be followed by at least one digit-or-dot; the capture is the
    greedy digit-or-dot run, extended by a letter v or V plus a greedy
    digit run when present. -/
def urlCaptureHere (pat cs : List Char) : Option (List Char) :=
  if ciIsPrefix pat cs then
    let after := cs.drop pat.length
    let run := after.takeWhile (fun c => c.isDigit || c = '.')
    if run.isEmpty then none
    else
      some (run ++
        (match after.drop run.length with
         | c :: rest =>
           if c = 'v' || c = 'V' then c :: rest.takeWhile Char.isDigit else []
         | [] => []))
  else none

/-- Leftmost regex search for one URL pattern: try each position from
    the left; a position where the pattern head matches but no capture
    follows fails and the scan resumes one character later, as in re.search. -/
def urlScan (pat : List Char) : List Char → Option (List Char)
  | [] => none
  | c :: cs =>
    match urlCaptureHere pat (c :: cs) with
    | some cap => some cap
    | none => urlScan pat cs

/-- Pattern constant: the substring guard arxiv.org. -/
def arxivOrgPat : List Char := "arxiv.org".data

/-- Pattern constant: the abs URL pattern head. -/
def arxivAbsPat : List Char := "arxiv.org/abs/".data

/-- Pattern constant: the pdf URL pattern head. -/
def arxivPdfPat : List Char := "arxiv.org/pdf/".data

/-! ## Reference records (_extract_arxiv_id_comprehensive,
    _build_reference_metadata_accurate, and the loop of
    _fetch_references_and_paper_venue, source lines 220-349) -/

/-- A raw reference entry as returned by the citation-graph service.
    Optional JSON fields are Options; string fields use the empty string
    for a missing or null value, matching the dict-get defaults in the
    source.  externalIds is none when the field is absent or not a
    dictionary (both make the key loop find nothing). -/
structure RawRef where
  externalIds : Option (List (String × String))
  url : Option String
  title : String
  authors : List String
  publicationDate : String
  year : Option Int
  paperId : Option String
deriving DecidableEq

/-- The key spellings probed in the externalIds dictionary, in source
    order. -/
def arxivKeySpellings : List String :=
  ["ArXiv", "arXiv", "arxiv", "ARXIV"]

/-- First truthy value among the probed keys: a key hit whose value is
    the empty string is falsy in Python and the loop moves on. -/
def firstTruthyKey (kvs : List (String × String)) : List String → Option String
  | [] => none
  | k :: ks =>
    match kvs.lookup k with
    | some v => if v ≠ "" then some v else firstTruthyKey kvs ks
    | none => firstTruthyKey kvs ks

/-- Embedding of _extract_arxiv_id_comprehensive: externalIds keys first,
    then regex extraction from the URL, guarded by a case-sensitive
    arxiv.org substring check; the abs pattern is searched over the whole
    URL before the pdf pattern is tried. -/
def extract_arxiv_id_comprehensive (ref : RawRef) : Option String :=
  match (match ref.externalIds with
         | some kvs => firstTruthyKey kvs arxivKeySpellings
         | none => none) with
  | some v => some v
  | none =>
    let url := ref.url.getD ""
    if url ≠ "" && containsSub arxivOrgPat url.data then
      match urlScan arxivAbsPat url.data with
      | some cap => some (String.mk cap)
      | none =>
        match urlScan arxivPdfPat url.data with
        | some cap => some (String.mk cap)
        | none => none
    else none

/-- A reference record as persisted in references.json. -/
structure RefRecord where
  paper_title : String
  authors : List String
  submission_date : String
  semantic_scholar_id : Option String
deriving DecidableEq

/-- Suffix appended in the year fallback for submission dates. -/
def janFirstSuffix : String := "-01-01"

/-- Embedding of _build_reference_metadata_accurate.  The supplementary
    date scrape of the reference's abstract page (a network call that
    returns an empty string on any failure) is passed in as the oracle
    dateScrape.  The record is dropped exactly when its title is empty. -/
def build_reference_metadata_accurate (dateScrape : String → String)
    (ref : RawRef) (aid : String) : Option RefRecord :=
  let authors := (ref.authors.filter (fun n => pyStripStr n ≠ "")).map pyStripStr
  let sd0 := if pyStripStr ref.publicationDate ≠ "" then pyStripStr ref.publicationDate else ""
  let sd1 := if sd0 = "" then dateScrape aid else sd0
  let sd2 :=
    if sd1 = "" then
      match ref.year with
      | some y => if 1990 ≤ y ∧ y ≤ 2030 then toString y ++ janFirstSuffix else ""
      | none => ""
    else sd1
  let ssid :=
    match ref.paperId with
    | some p => if p ≠ "" then some p else none
    | none => none
  if ref.title = "" then none
  else some ⟨ref.title, authors, sd2, ssid⟩

/-- The body of the reference loop in _fetch_references_and_paper_venue:
    extract an id, validate it, build the record, and key it by the
    dash-form id; none when the entry contributes nothing. -/
def process_reference_entry (dateScrape : String → String)
    (ref : RawRef) : Option (String × RefRecord) :=
  match extract_arxiv_id_comprehensive ref with
  | some aid =>
    if is_valid_arxiv_id_str aid then
      match build_reference_metadata_accurate dateScrape ref aid with
      | some data => some (format_yymm_id_str aid, data)
      | none => none
    else none
  | none => none

/-- Python dict assignment: an existing key is updated in place keeping
    its position, a new key is appended. -/
def dictInsert (m : List (String × RefRecord)) (k : String) (v : RefRecord) :
    List (String × RefRecord) :=
  if m.any (fun kv => kv.1 = k) then
    m.map (fun kv => if kv.1 = k then (k, v) else kv)
  else m ++ [(k, v)]

/-- The reference mapping assembled by _fetch_references_and_paper_venue
    from the raw reference list (the venue and counter side effects are
    modelled separately). -/
def references_mapping (dateScrape : String → String) (refs : List RawRef) :
    List (String × RefRecord) :=
  refs.foldl
    (fun acc ref =>
      match process_reference_entry dateScrape ref with
      | some (k, v) => dictInsert acc k v
      | none => acc)
    []

/-! ## Version discovery (_discover_all_versions, source lines 426-451) -/

/-- Configurable constant from the source. -/
def MAX_VERSION_TO_CHECK : Nat := 8

/-- The loop building the contiguous run: for v from 1 to the maximum
    confirmed revision, append v while it is confirmed, break at the
    first gap. -/
def buildContiguous (results : List Nat) : List Nat :=
  (List.range' 1 (results.foldl max 0)).takeWhile (fun v => results.contains v)

/-- Embedding of _discover_all_versions.  probe v is the outcome of the
    concurrent HEAD existence check for revision v (an individual probe
    error counts as absent); recheckV1 is the outcome of the independent
    re-check of revision 1 performed on the fallback path.  The confirmed
    revisions are collected and sorted ascending, which is the filter of
    the ascending candidate range. -/
def discover_all_versions (probe : Nat → Bool) (recheckV1 : Bool) : List Nat :=
  let maxV := min MAX_VERSION_TO_CHECK 20
  let results := (List.range' 1 maxV).filter probe
  if results.isEmpty then
    if recheckV1 then [1] else []
  else
    let contiguous := buildContiguous results
    if contiguous.isEmpty then
      if recheckV1 then [1] else []
    else contiguous

/-- Spec-worded reference value for claim C1: the maximal contiguous
    run 1..k of revisions confirmed by the probes, read off directly as
    the longest confirmed initial segment of the probed candidate range. -/
def specContiguousRun (probe : Nat → Bool) : List Nat :=
  (List.range' 1 (min MAX_VERSION_TO_CHECK 20)).takeWhile probe

/-- Spec-worded version discovery, following the claim text: return the
    maximal contiguous run starting at 1; if it is empty return the
    single revision 1 when the independent re-check succeeds, and the
    empty list otherwise. -/
def spec_discover_versions (probe : Nat → Bool) (recheckV1 : Bool) : List Nat :=
  if (specContiguousRun probe).isEmpty then
    if recheckV1 then [1] else []
  else specContiguousRun probe

/-! ## Citation-graph transport (_ss_get_cached, source lines 198-218,
    and the session adapter configured in source lines 158-162) -/

/-- The status_forcelist of the Retry policy mounted on the session. -/
def retryForcelist : List Nat := [429, 500, 502, 503, 504]

/-- Result of one call through the session adapter: the final response
    reaching application code, or an exception (connection failure, or
    retries exhausted on a forcelisted status, which urllib3 raises with
    raise_on_status left at its default), paired with the number of HTTP
    requests actually issued. -/
def adapterGet : Nat → List (Nat × String) → Except Unit (Nat × String) × Nat
  | _, [] => (Except.error (), 0)
  | retriesLeft, (code, body) :: rest =>
    if code ∈ retryForcelist then
      match retriesLeft with
      | 0 => (Except.error (), 1)
      | r + 1 => ((adapterGet r rest).1, (adapterGet r rest).2 + 1)
    else (Except.ok (code, body), 1)

/-- Counter deltas of one citation-graph call. -/
structure SSStats where
  ss_requests_made : Nat
  ss_rate_limit_hits : Nat
  ss_errors : Nat
deriving DecidableEq

/-- Application-level result of _ss_get_cached: Python None, the empty
    dictionary, or parsed data. -/
inductive SSRet where
  | null : SSRet
  | emptyDict : SSRet
  | data : String → SSRet
deriving DecidableEq

/-- Embedding of _ss_get_cached over an abstract supply of HTTP
    responses (status and body) consumed by the session adapter, which
    is configured with Retry total 2 and the forcelist above.  Returns
    the application result, the counter deltas, and the number of HTTP
    requests issued within the call. -/
def ss_get_cached (responses : List (Nat × String)) : SSRet × SSStats × Nat :=
  match adapterGet 2 responses with
  | (Except.ok (code, body), n) =>
    if code = 200 then (SSRet.data body, ⟨1, 0, 0⟩, n)
    else if code = 429 then (SSRet.null, ⟨1, 1, 0⟩, n)
    else if code = 404 then (SSRet.emptyDict, ⟨1, 0, 0⟩, n)
    else (SSRet.emptyDict, ⟨1, 0, 0⟩, n)
  | (Except.error _, n) => (SSRet.null, ⟨1, 0, 1⟩, n)

/-! ## Archive downloads (_download_and_process_version and
    _download_versions_concurrently, source lines 453-499) -/

/-- Embedding of _download_and_process_version: saved is the result of
    download_eprint_session (the path of the stored archive on a 2xx
    response, none otherwise), extractOk tells whether tar extraction
    succeeded; the revision counts only when both succeed. -/
def download_and_process_version (saved : Option String) (extractOk : Bool) : Bool :=
  match saved with
  | some _ => if extractOk then true else false
  | none => false

/-- Embedding of _download_versions_concurrently: one download task per
    discovered revision, counting the successes.  The per-revision
    outcomes are given by the oracles dl (archive download) and ex
    (extraction). -/
def download_versions_concurrently (versions : List Nat)
    (dl : Nat → Option String) (ex : Nat → Bool) : Nat :=
  versions.foldl
    (fun acc v => if download_and_process_version (dl v) (ex v) then acc + 1 else acc)
    0

/-! ## Metadata fetch (_fetch_metadata_with_complete_versions,
    source lines 351-391) -/

/-- The first matching entry returned by the primary (arxiv library)
    lookup.  published and journal_ref are optional as in the source
    (guarded by hasattr and truthiness). -/
structure ArxivEntry where
  title : String
  authors : List String
  published : Option String
  journal_ref : Option String
deriving DecidableEq

/-- The venue fields of a citation-graph response, as consumed by the
    metadata fetch: Python None, the empty dictionary (falsy, skipped),
    or a data dictionary whose publicationVenue field is either absent
    or a dictionary with an optional name, plus an optional venue
    string. -/
inductive VenueResp where
  | null : VenueResp
  | emptyDict : VenueResp
  | fields : Option (Option String) → Option String → VenueResp
deriving DecidableEq

/-- Strip a candidate venue string and keep it only when nonempty,
    matching the guards of the form nm and nm.strip() in the source. -/
def cleanNonempty : Option String → Option String
  | some s => if pyStripStr s ≠ "" then some (pyStripStr s) else none
  | none => none

/-- Python truthiness of an optional string (None and the empty string
    are falsy). -/
def venueTruthy (o : Option String) : Bool :=
  o.getD "" ≠ ""

/-- The metadata record persisted to metadata.json.  revised_dates is
    the empty list when the light scrape found nothing (the key is then
    not added in the source). -/
structure PaperMetadata where
  paper_title : String
  authors : List String
  submission_date : String
  publication_venue : String
  revised_dates : List String
deriving DecidableEq

/-- Embedding of _fetch_metadata_with_complete_versions.  entry is the
    primary lookup result (none on StopIteration or a raised error);
    discovered is the version list from discover_all_versions; ssVenue
    is the citation-graph venue lookup (its own call never raises, every
    failure is already folded into null); revised is the result of the
    light revision-date scrape (empty on any failure).  Returns the
    metadata and the discovered version numbers, with the single-version
    fallback applied. -/
def fetch_metadata_with_complete_versions (entry : Option ArxivEntry)
    (discovered : List Nat) (ssVenue : VenueResp) (revised : List String)
    (venue_override : Option String) : Option PaperMetadata × List Nat :=
  match entry with
  | none => (none, [])
  | some paper =>
    let all_versions := if discovered.isEmpty then [1] else discovered
    let venueA : String :=
      if venueTruthy venue_override then venue_override.getD ""
      else
        match ssVenue with
        | VenueResp.fields pubv v =>
          match pubv with
          | some nm => (cleanNonempty nm).getD ""
          | none => (cleanNonempty v).getD ""
        | _ => ""
    let venueB : String :=
      if venueA = "" then
        match paper.journal_ref with
        | some j => if j ≠ "" then pyStripStr j else ""
        | none => ""
      else venueA
    (some ⟨paper.title, paper.authors, (paper.published.getD ""), venueB, revised⟩,
     all_versions)

/-! ## Per-paper orchestration (scrape_single_paper, source lines
    501-572) as an event-trace model -/

/-- Observable actions of one paper's orchestration, in the order the
    orchestrating task performs or launches them.  The two concurrent
    fetches appear in submission order; the download events are the
    concurrently submitted download tasks, all of which start only after
    the persistence events. -/
inductive Event where
  | ensureDir : Event
  | fetchRefs : Event
  | fetchMeta : Option String → Event
  | saveMetadata : Event
  | saveReferences : Event
  | download : Nat → Event
deriving DecidableEq

/-- Environment of one paper's run: the outcomes of every external
    interaction scrape_single_paper can perform.  The reference fetch
    either returns a mapping and an optional venue or raises or times
    out; the first metadata future either raises or times out
    (metaFutureRaises) or evaluates the fetch on the First inputs; the
    retry evaluates the fetch on the Retry inputs.  dl and ex drive the
    per-revision download outcomes. -/
structure ScrapeEnv where
  refsOutcome : Except Unit (List (String × RefRecord) × Option String)
  metaFutureRaises : Bool
  entryFirst : Option ArxivEntry
  discoveredFirst : List Nat
  ssVenueFirst : VenueResp
  revisedFirst : List String
  entryRetry : Option ArxivEntry
  discoveredRetry : List Nat
  ssVenueRetry : VenueResp
  revisedRetry : List String
  dl : Nat → Option String
  ex : Nat → Bool

/-- The reference fetch join: a timeout or error degrades to the empty
    mapping and no venue (source lines 519-523). -/
def refs_result (env : ScrapeEnv) : List (String × RefRecord) × Option String :=
  match env.refsOutcome with
  | Except.ok rv => rv
  | Except.error _ => ([], none)

/-- The metadata join: a raised or timed-out future degrades to no
    metadata and no versions (source lines 528-532); otherwise the
    concurrent fetch ran with no venue override. -/
def meta_first (env : ScrapeEnv) : Option PaperMetadata × List Nat :=
  if env.metaFutureRaises then (none, [])
  else
    fetch_metadata_with_complete_versions env.entryFirst env.discoveredFirst
      env.ssVenueFirst env.revisedFirst none

/-- Metadata after the single synchronous retry (source lines 534-535):
    when the first result is no metadata, the fetch runs once more with
    the venue already obtained from the reference fetch passed along. -/
def meta_resolved (env : ScrapeEnv) : Option PaperMetadata × List Nat :=
  match (meta_first env).1 with
  | some m => (some m, (meta_first env).2)
  | none =>
    fetch_metadata_with_complete_versions env.entryRetry env.discoveredRetry
      env.ssVenueRetry env.revisedRetry (refs_result env).2

/-- The events up to and including the metadata fetches: the per-paper
    directory creation, the two concurrently submitted fetches, and the
    retry fetch when the first metadata result was empty. -/
def fetch_events (env : ScrapeEnv) : List Event :=
  [Event.ensureDir, Event.fetchRefs, Event.fetchMeta none] ++
    (if (meta_first env).1.isSome then []
     else [Event.fetchMeta (refs_result env).2])

/-- What a successful paper run produced. -/
structure ScrapeOutcome where
  savedMetadata : PaperMetadata
  savedReferences : List (String × RefRecord)
  successfulVersions : Nat
deriving DecidableEq

/-- Embedding of scrape_single_paper as a result plus event trace.  When
    metadata is still absent after the retry the run raises before
    anything is persisted (in the source the venue merge on the None
    result raises a TypeError just before the explicit raise; both are
    the same observable failure point, after the fetch events and before
    the save events).  On success the venue from the reference fetch,
    when truthy, overrides the fetched venue; metadata and references
    are saved; then the downloads are submitted. -/
def scrape_single_paper (env : ScrapeEnv) : Except Unit ScrapeOutcome × List Event :=
  match (meta_resolved env).1 with
  | none => (Except.error (), fetch_events env)
  | some m =>
    let venue := (refs_result env).2
    let merged :=
      if venueTruthy venue then { m with publication_venue := venue.getD "" } else m
    let versions := (meta_resolved env).2
    let cnt := download_versions_concurrently versions env.dl env.ex
    (Except.ok ⟨merged, (refs_result env).1, cnt⟩,
     fetch_events env ++ [Event.saveMetadata, Event.saveReferences] ++
       versions.map Event.download)

/-! ## Batch orchestration (scrape_papers and _scrape_single_paper_safe,
    source lines 574-603) -/

/-- Embedding of _scrape_single_paper_safe: any exception from the paper
    run is caught and converted to False. -/
def scrape_single_paper_safe (env : ScrapeEnv) : Bool :=
  match (scrape_single_paper env).1 with
  | Except.ok _ => true
  | Except.error _ => false

/-- The batch counters of scrape_papers. -/
structure BatchStats where
  papers_attempted : Nat
  papers_successful : Nat
  papers_failed : Nat
deriving DecidableEq

/-- Embedding of the collection loop of scrape_papers: every submitted
    paper is awaited; each outcome increments attempted and exactly one
    of successful or failed (the except branch of the loop can only fire
    for exceptions escaping the safe wrapper, which swallows them all,
    and it also increments failed). -/
def scrape_papers (envs : List ScrapeEnv) : BatchStats :=
  envs.foldl
    (fun st env =>
      let ok := scrape_single_paper_safe env
      ⟨st.papers_attempted + 1,
       st.papers_successful + (if ok then 1 else 0),
       st.papers_failed + (if ok then 0 else 1)⟩)
    ⟨0, 0, 0⟩

/-! ## Shared statistics counters under concurrency (the increments of
    self.stats, for example source line 201, executed by concurrent
    worker threads) -/

/-- One thread's progress through the plain increment
    stats[key] += 1, which compiles to a read of the current value
    followed by a separate store of value + 1 with no lock held. -/
inductive ThreadPhase where
  | notStarted : ThreadPhase
  | loaded : Nat → ThreadPhase
  | finished : ThreadPhase
deriving DecidableEq

/-- One scheduler step of the chosen thread: a not-started thread reads
    the counter into its register; a loaded thread stores its register
    plus one; a finished thread does nothing. -/
def unsyncStep (counter : Nat) (ph : ThreadPhase) : Nat × ThreadPhase :=
  match ph with
  | ThreadPhase.notStarted => (counter, ThreadPhase.loaded counter)
  | ThreadPhase.loaded v => (v + 1, ThreadPhase.finished)
  | ThreadPhase.finished => (counter, ThreadPhase.finished)

/-- Run a schedule (a list of thread indices) over the shared counter
    and the thread states, returning the final counter value. -/
def runUnsyncSched (sched : List Nat) (counter : Nat)
    (threads : List ThreadPhase) : Nat :=
  match sched with
  | [] => counter
  | t :: rest =>
    match threads[t]? with
    | some ph =>
      let (c2, ph2) := unsyncStep counter ph
      runUnsyncSched rest c2 (threads.set t ph2)
    | none => runUnsyncSched rest counter threads

/-! ## Auxiliary definitions used by the statements and proofs -/

/-- Length of the initial segment of s, s+1, ..., s+n-1 on which q
    holds (the abstract length of a takeWhile over a consecutive
    range). -/
def runLen (q : Nat → Bool) : Nat → Nat → Nat
  | _, 0 => 0
  | s, n + 1 => if q s then runLen q (s + 1) n + 1 else 0

/-- A well-formed simple id: a nonempty digit run, a dot, a nonempty
    digit run, optionally followed by a revision suffix of letter v and
    a nonempty digit run.  This is the shape of the ids the pipeline
    feeds to format_yymm_id. -/
def isSimpleDotId (cs : List Char) : Bool :=
  match cs.dropWhile Char.isDigit with
  | '.' :: rest =>
    !(cs.takeWhile Char.isDigit).isEmpty && !(rest.takeWhile Char.isDigit).isEmpty &&
      (match rest.dropWhile Char.isDigit with
       | [] => true
       | 'v' :: ks => !ks.isEmpty && ks.all Char.isDigit
       | _ => false)
  | _ => false

/-- Concrete input: an id with several dots, on which format
    normalization is not idempotent. -/
def exDotsId : String := "a.b.c"

/-- Concrete input: the spec's example id with a revision suffix. -/
def exIdV2 : String := "2504.13946v2"

/-- Its dash form from the spec. -/
def exIdDash : String := "2504-13946"

/-- Trivial date-scrape oracle: the supplementary scrape finds nothing. -/
def dOracleEmpty : String → String := fun _ => ""

/-- Example reference: external id under the key ArXiv. -/
def refExA : RawRef := ⟨some [("ArXiv", "2401.00001")], none, "Title A", [], "", none, none⟩

/-- Example reference: no external ids, id in an abs URL. -/
def refExB : RawRef := ⟨none, some "https://arxiv.org/abs/2401.00002", "Title B", [], "", none, none⟩

/-- Example reference: a valid extractable id but an empty title. -/
def refExC : RawRef := ⟨none, some "https://arxiv.org/abs/2401.00003", "", [], "", none, none⟩

/-- Example reference: both an external id and a URL id (the external
    id must win). -/
def refExD : RawRef :=
  ⟨some [("ArXiv", "2401.00001")], some "https://arxiv.org/abs/2401.00002", "Title D", [], "", none, none⟩

/-- Record built for refExA. -/
def recExA : RefRecord := ⟨"Title A", [], "", none⟩

/-- Record built for refExB. -/
def recExB : RefRecord := ⟨"Title B", [], "", none⟩

/-- Dash-form key of refExA. -/
def keyExA : String := "2401-00001"

/-- Dash-form key of refExB. -/
def keyExB : String := "2401-00002"

/-- Example primary metadata entry. -/
def entryEx : ArxivEntry := ⟨"Sample paper", [], none, none⟩

/-- A paper environment that succeeds on the first metadata fetch and
    downloads one revision. -/
def envDownloadEx : ScrapeEnv :=
  ⟨Except.ok ([], none), false, some entryEx, [1], VenueResp.null, [],
   none, [], VenueResp.null, [], fun _ => some "saved", fun _ => true⟩

/-- A paper environment whose first metadata future times out and whose
    retry finds no primary entry: a hard failure. -/
def envFailEx : ScrapeEnv :=
  ⟨Except.ok ([], none), true, none, [], VenueResp.null, [],
   none, [], VenueResp.null, [], fun _ => none, fun _ => false⟩

/-- Batch example: a failing paper environment (first fetch raises and
    the retry finds no entry). -/
def envC5fail : ScrapeEnv :=
  ⟨Except.error (), true, none, [], VenueResp.null, [],
   none, [], VenueResp.null, [], fun _ => none, fun _ => false⟩

/-- Batch example: a succeeding paper environment. -/
def envC5ok : ScrapeEnv :=
  ⟨Except.ok ([], none), false, some entryEx, [1, 2], VenueResp.null, [],
   none, [], VenueResp.null, [], fun _ => some "saved", fun _ => true⟩

/-- Bool test for a download event. -/
def isDownloadEv : Event → Bool
  | Event.download _ => true
  | _ => false

/-- Bool test for a metadata-fetch event. -/
def isFetchMetaEv : Event → Bool
  | Event.fetchMeta _ => true
  | _ => false

/-! ## Generic list helper lemmas -/

theorem takeWhile_append_all {α : Type} (q : α → Bool) (a b : List α)
    (h : ∀ x ∈ a, q x = true) :
    (a ++ b).takeWhile q = a ++ b.takeWhile q := by
  induction a with
  | nil => simp
  | cons c cs ih =>
    have hc : q c = true := h c (List.mem_cons_self c cs)
    simp only [List.cons_append, List.takeWhile_cons, hc, if_true]
    rw [ih (fun x hx => h x (List.mem_cons_of_mem c hx))]

theorem takeWhile_cons_false {α : Type} (q : α → Bool) (c : α) (cs : List α)
    (h : q c = false) : (c :: cs).takeWhile q = [] := by
  simp [List.takeWhile_cons, h]

theorem dropWhile_eq_self_of_head {α : Type} (q : α → Bool) (l : List α)
    (h : ∀ x ∈ l, q x = false) : l.dropWhile q = l := by
  cases l with
  | nil => rfl
  | cons c cs => simp [List.dropWhile_cons, h c (List.mem_cons_self c cs)]

theorem le_foldl_max (l : List Nat) (a : Nat) : a ≤ l.foldl max a := by
  induction l generalizing a with
  | nil => exact Nat.le_refl a
  | cons x xs ih =>
    exact Nat.le_trans (Nat.le_max_left a x) (ih (max a x))

theorem mem_le_foldl_max (l : List Nat) (a x : Nat) (h : x ∈ l) :
    x ≤ l.foldl max a := by
  induction l generalizing a with
  | nil => cases h
  | cons y ys ih =>
    rcases List.mem_cons.mp h with rfl | hmem
    · exact Nat.le_trans (Nat.le_max_right a x) (le_foldl_max ys (max a x))
    · exact ih (max a y) hmem

theorem foldl_max_le (l : List Nat) (a c : Nat) (ha : a ≤ c)
    (h : ∀ x ∈ l, x ≤ c) : l.foldl max a ≤ c := by
  induction l generalizing a with
  | nil => exact ha
  | cons y ys ih =>
    exact ih (max a y) (Nat.max_le.mpr ⟨ha, h y (List.mem_cons_self y ys)⟩)
      (fun x hx => h x (List.mem_cons_of_mem y hx))

theorem takeWhile_range' (q : Nat → Bool) :
    ∀ (n s : Nat), (List.range' s n).takeWhile q = List.range' s (runLen q s n) := by
  intro n
  induction n with
  | zero => intro s; rfl
  | succ n ih =>
    intro s
    show ((s :: List.range' (s + 1) n).takeWhile q) = List.range' s (runLen q s (n + 1))
    by_cases hq : q s = true
    · simp only [List.takeWhile_cons, hq, if_true, runLen, ih (s + 1)]
      rfl
    · have hq2 : q s = false := by
        cases hqs : q s
        · rfl
        · exact absurd hqs hq
      simp [List.takeWhile_cons, hq2, runLen]

theorem runLen_congr (q q2 : Nat → Bool) :
    ∀ (n s : Nat), (∀ i, s ≤ i → i < s + n → q i = q2 i) →
      runLen q s n = runLen q2 s n := by
  intro n
  induction n with
  | zero => intro s _; rfl
  | succ n ih =>
    intro s h
    have hs : q s = q2 s := h s (Nat.le_refl s) (by omega)
    simp only [runLen, hs]
    by_cases h2 : q2 s = true
    · simp only [h2, if_true]
      rw [ih (s + 1) (fun i hi1 hi2 => h i (by omega) (by omega))]
    · have h3 : q2 s = false := by
        cases hqs : q2 s
        · rfl
        · exact absurd hqs h2
      simp [h3]

theorem runLen_add (q : Nat → Bool) :
    ∀ (m k s : Nat), runLen q s (m + k) =
      if runLen q s m = m then m + runLen q (s + m) k else runLen q s m := by
  intro m
  induction m with
  | zero => intro k s; simp [runLen]
  | succ m ih =>
    intro k s
    have harr : m + 1 + k = (m + k) + 1 := by omega
    rw [harr]
    by_cases hq : q s = true
    · simp only [runLen, hq, if_true]
      rw [ih k (s + 1)]
      by_cases hm : runLen q (s + 1) m = m
      · rw [if_pos hm, if_pos (by omega : runLen q (s + 1) m + 1 = m + 1)]
        have hsm : s + 1 + m = s + (m + 1) := by omega
        rw [hsm]
        omega
      · rw [if_neg hm, if_neg (by omega : ¬(runLen q (s + 1) m + 1 = m + 1))]
    · have hq2 : q s = false := by
        cases hqs : q s
        · rfl
        · exact absurd hqs hq
      have hcond : ¬((0 : Nat) = m + 1) := by omega
      simp [runLen, hq2, hcond]

theorem runLen_le (q : Nat → Bool) : ∀ (n s : Nat), runLen q s n ≤ n := by
  intro n
  induction n with
  | zero => intro s; exact Nat.le_refl 0
  | succ n ih =>
    intro s
    by_cases hq : q s = true
    · simp only [runLen, hq, if_true]
      exact Nat.succ_le_succ (ih (s + 1))
    · have hq2 : q s = false := by
        cases hqs : q s
        · rfl
        · exact absurd hqs hq
      simp [runLen, hq2]

theorem takeWhile_eq_nil_of_filter_nil (p : Nat → Bool) (l : List Nat)
    (h : l.filter p = []) : l.takeWhile p = [] := by
  rw [List.eq_nil_iff_forall_not_mem]
  intro a ha
  have hp : p a = true := List.mem_takeWhile_imp ha
  have hal : a ∈ l := (List.takeWhile_sublist p).subset ha
  have : a ∈ l.filter p := List.mem_filter.mpr ⟨hal, hp⟩
  rw [h] at this
  cases this

theorem contains_filter_range (p : Nat → Bool) (n v : Nat) :
    ((List.range' 1 n).filter p).contains v = true ↔
      (1 ≤ v ∧ v ≤ n ∧ p v = true) := by
  show List.elem v ((List.range' 1 n).filter p) = true ↔ _
  rw [List.elem_iff]
  rw [List.mem_filter, List.mem_range'_1]
  constructor
  · rintro ⟨⟨h1, h2⟩, h3⟩
    exact ⟨h1, by omega, h3⟩
  · rintro ⟨h1, h2, h3⟩
    exact ⟨⟨h1, by omega⟩, h3⟩

theorem buildContiguous_filter (p : Nat → Bool) (n : Nat) :
    buildContiguous ((List.range' 1 n).filter p) = (List.range' 1 n).takeWhile p := by
  set R := (List.range' 1 n).filter p with hR
  set M := R.foldl max 0 with hM
  have hRm : ∀ v, v ∈ R → (1 ≤ v ∧ v ≤ n ∧ p v = true) := by
    intro v hv
    rw [hR, List.mem_filter, List.mem_range'_1] at hv
    exact ⟨hv.1.1, by omega, hv.2⟩
  have hMn : M ≤ n :=
    foldl_max_le R 0 n (Nat.zero_le n) (fun x hx => (hRm x hx).2.1)
  have hagree : ∀ i, 1 ≤ i → i < 1 + M → R.contains i = p i := by
    intro i h1 h2
    by_cases hp : p i = true
    · have hmem : R.contains i = true := by
        rw [hR, contains_filter_range]
        exact ⟨h1, by omega, hp⟩
      rw [hmem, hp]
    · have hpf : p i = false := by
        cases hpp : p i
        · rfl
        · exact absurd hpp hp
      have hcf : R.contains i = false := by
        cases hc : R.contains i
        · rfl
        · rw [hR, contains_filter_range] at hc
          exact absurd hc.2.2 hp
      rw [hcf, hpf]
  have key : runLen (fun v => R.contains v) 1 M = runLen p 1 n := by
    have h1 : runLen (fun v => R.contains v) 1 M = runLen p 1 M :=
      runLen_congr _ p M 1 hagree
    have hnsplit : n = M + (n - M) := by omega
    have hsplit : runLen p 1 n =
        if runLen p 1 M = M then M + runLen p (1 + M) (n - M) else runLen p 1 M := by
      conv_lhs => rw [hnsplit]
      exact runLen_add p M (n - M) 1
    by_cases hfull : runLen p 1 M = M
    · have hzero : runLen p (1 + M) (n - M) = 0 := by
        cases hnm : n - M with
        | zero => rfl
        | succ k =>
          have hplt : p (1 + M) = false := by
            cases hpm : p (1 + M)
            · rfl
            · have hmem : (1 + M) ∈ R := by
                rw [hR, List.mem_filter, List.mem_range'_1]
                exact ⟨⟨by omega, by omega⟩, hpm⟩
              have : 1 + M ≤ M := mem_le_foldl_max R 0 (1 + M) hmem
              omega
          simp [runLen, hplt]
      rw [h1, hfull, hsplit, if_pos hfull, hzero]
      omega
    · rw [h1, hsplit, if_neg hfull]
  show (List.range' 1 M).takeWhile (fun v => R.contains v) = _
  rw [takeWhile_range' (fun v => R.contains v) M 1, takeWhile_range' p n 1, key]

/-- Claim C1: for every set of revisions confirmed by the concurrent
    probes, discover_all_versions returns exactly the maximal contiguous
    run 1..k of confirmed revisions in ascending order; when that run is
    empty it returns the single revision 1 exactly when the independent
    re-check of revision 1 succeeds, and the empty list otherwise.  This
    is stated as equality with the spec-worded function
    spec_discover_versions for every probe outcome, together with the
    spec's worked examples: confirmed 1,2,4 gives 1,2; confirmed 1,3
    gives 1; confirmed 2,3 gives the re-check fallback. -/
theorem discover_versions_matches_spec :
    (∀ (probe : Nat → Bool) (recheckV1 : Bool),
        discover_all_versions probe recheckV1 = spec_discover_versions probe recheckV1)
    ∧ discover_all_versions (fun v => v = 1 || v = 2 || v = 4) false = [1, 2]
    ∧ discover_all_versions (fun v => v = 1 || v = 3) false = [1]
    ∧ discover_all_versions (fun v => v = 2 || v = 3) true = [1]
    ∧ discover_all_versions (fun v => v = 2 || v = 3) false = [] := by
  refine ⟨?_, by decide, by decide, by decide, by decide⟩
  intro probe recheckV1
  unfold discover_all_versions spec_discover_versions specContiguousRun
  simp only []
  rw [buildContiguous_filter probe (min MAX_VERSION_TO_CHECK 20)]
  by_cases hres : ((List.range' 1 (min MAX_VERSION_TO_CHECK 20)).filter probe).isEmpty = true
  · rw [if_pos hres]
    have hempty : (List.range' 1 (min MAX_VERSION_TO_CHECK 20)).takeWhile probe = [] :=
      takeWhile_eq_nil_of_filter_nil probe _ (List.isEmpty_iff.mp hres)
    rw [hempty]
    rfl
  · rw [if_neg hres]

/-! ## Download counting (claim C7) -/

theorem download_and_process_eq (saved : Option String) (extractOk : Bool) :
    download_and_process_version saved extractOk = (saved.isSome && extractOk) := by
  cases saved <;> cases extractOk <;> rfl

theorem foldl_count_if {α : Type} (q : α → Bool) :
    ∀ (l : List α) (acc : Nat),
      l.foldl (fun a v => if q v then a + 1 else a) acc = acc + l.countP q := by
  intro l
  induction l with
  | nil => intro acc; simp
  | cons x xs ih =>
    intro acc
    rw [List.foldl_cons, ih, List.countP_cons]
    by_cases hq : q x = true
    · simp [hq]
      omega
    · have hq2 : q x = false := by
        cases hqx : q x
        · rfl
        · exact absurd hqx hq
      simp [hq2]

theorem countP_eq_sum_map {α : Type} (q : α → Bool) :
    ∀ l : List α, l.countP q = (l.map (fun v => if q v then 1 else 0)).sum := by
  intro l
  induction l with
  | nil => rfl
  | cons x xs ih =>
    rw [List.countP_cons, List.map_cons, List.sum_cons, ih]
    by_cases hq : q x = true
    · simp [hq]
      omega
    · have hq2 : q x = false := by
        cases hqx : q x
        · rfl
        · exact absurd hqx hq
      simp [hq2]

/-- Claim C7: the per-paper download step returns exactly the number of
    revisions for which both the archive download and the extraction
    succeeded; the count is the sum of independent per-revision
    indicators (so one revision's failure affects only its own
    contribution), and it always lies between 0 and the number of
    discovered revisions. -/
theorem download_count_correct :
    ∀ (versions : List Nat) (dl : Nat → Option String) (ex : Nat → Bool),
      download_versions_concurrently versions dl ex =
        (versions.filter (fun v => (dl v).isSome && ex v)).length
      ∧ download_versions_concurrently versions dl ex =
          (versions.map (fun v => if (dl v).isSome && ex v then 1 else 0)).sum
      ∧ download_versions_concurrently versions dl ex ≤ versions.length := by
  intro versions dl ex
  have hkey : download_versions_concurrently versions dl ex =
      versions.countP (fun v => (dl v).isSome && ex v) := by
    unfold download_versions_concurrently
    have hbody : (fun (acc : Nat) (v : Nat) =>
        if download_and_process_version (dl v) (ex v) then acc + 1 else acc) =
        (fun (acc : Nat) (v : Nat) =>
          if (fun v => (dl v).isSome && ex v) v then acc + 1 else acc) := by
      funext acc v
      rw [download_and_process_eq]
    rw [hbody, foldl_count_if (fun v => (dl v).isSome && ex v) versions 0]
    omega
  refine ⟨?_, ?_, ?_⟩
  · rw [hkey, List.countP_eq_length_filter]
  · rw [hkey, countP_eq_sum_map]
  · rw [hkey, List.countP_eq_length_filter]
    exact List.length_filter_le _ _

/-! ## Lost update on the shared counters (claim C4) -/

/-- Claim C4 (refuted by the interleaving semantics of the plain
    increments in the source): two concurrent worker threads each
    performing one plain increment of a shared statistics counter can
    interleave as load, load, store, store, leaving the counter at 1
    instead of 2 - one update is lost because the read-modify-write is
    not synchronized.  A serialized schedule of the same two increments
    yields 2, so the loss is exactly the missing synchronization. -/
theorem stats_increment_lost_update :
    runUnsyncSched [0, 1, 0, 1] 0 [ThreadPhase.notStarted, ThreadPhase.notStarted] = 1
    ∧ runUnsyncSched [0, 0, 1, 1] 0 [ThreadPhase.notStarted, ThreadPhase.notStarted] = 2
    ∧ (1 : Nat) ≠ 2 := by
  exact ⟨rfl, rfl, by decide⟩

/-! ## Citation-graph status handling (claim C8) -/

theorem adapterGet_ok_not_forcelisted :
    ∀ (responses : List (Nat × String)) (r : Nat) (code : Nat) (body : String) (n : Nat),
      adapterGet r responses = (Except.ok (code, body), n) → code ∉ retryForcelist := by
  intro responses
  induction responses with
  | nil =>
    intro r code body n h
    simp [adapterGet] at h
  | cons cb rest ih =>
    intro r code body n h
    obtain ⟨c, b⟩ := cb
    cases r with
    | zero =>
      by_cases hc : c ∈ retryForcelist
      · simp [adapterGet, hc] at h
      · simp only [adapterGet, if_neg hc] at h
        have h1 := congrArg Prod.fst h
        simp only [] at h1
        have hcb : c = code := by
          have := Except.ok.inj h1
          exact (Prod.mk.injEq c b code body).mp this |>.1
        rw [← hcb]
        exact hc
    | succ r2 =>
      by_cases hc : c ∈ retryForcelist
      · simp only [adapterGet, if_pos hc] at h
        have h1 : (adapterGet r2 rest).1 = Except.ok (code, body) := congrArg Prod.fst h
        exact ih r2 code body (adapterGet r2 rest).2 (by rw [← h1])
      · simp only [adapterGet, if_neg hc] at h
        have h1 := congrArg Prod.fst h
        simp only [] at h1
        have hcb : c = code := by
          have := Except.ok.inj h1
          exact (Prod.mk.injEq c b code body).mp this |>.1
        rw [← hcb]
        exact hc

/-- Claim C8 counterexample: a call whose transport-level responses are
    a 429 followed by a 200 is retried inside the call by the session
    adapter (2 HTTP requests are issued), does not increment the
    rate-limit-hit counter, and returns the data of the second response.
    This contradicts the claim that a 429 response increments the
    counter and yields no data without the HTTP request being retried
    within the call: the Retry policy mounted in the constructor lists
    429 in its status_forcelist. -/
theorem ss_429_retried_counterexample :
    ss_get_cached [(429, "x"), (200, "ok")] = (SSRet.data "ok", ⟨1, 0, 0⟩, 2)
    ∧ (ss_get_cached [(429, "x"), (200, "ok")]).2.2 ≠ 1 := by
  exact ⟨rfl, by decide⟩

/-- Claim C8 amended: 429 responses are first retried at the transport
    layer (the session adapter is built with Retry total 2 and 429 in
    its status_forcelist).  A 429 followed by a success yields the
    success data with no counter change and two HTTP requests; three
    consecutive 429s exhaust the retries, surface as an exception, are
    counted in ss_errors (not in ss_rate_limit_hits) and yield no data;
    the application branch incrementing ss_rate_limit_hits is
    unreachable through the configured adapter, so the counter delta is
    0 on every call.  A 404 response is not forcelisted: it yields the
    empty result with no exception, no retry, and no error counted,
    exactly as the claim states for 404. -/
theorem ss_status_handling_amended :
    (∀ (b : String) (rest : List (Nat × String)),
        ss_get_cached ((404, b) :: rest) = (SSRet.emptyDict, ⟨1, 0, 0⟩, 1))
    ∧ (∀ (b1 b2 : String) (rest : List (Nat × String)),
        ss_get_cached ((429, b1) :: (200, b2) :: rest) = (SSRet.data b2, ⟨1, 0, 0⟩, 2))
    ∧ (∀ (b1 b2 b3 : String) (rest : List (Nat × String)),
        ss_get_cached ((429, b1) :: (429, b2) :: (429, b3) :: rest) =
          (SSRet.null, ⟨1, 0, 1⟩, 3))
    ∧ (∀ responses : List (Nat × String),
        (ss_get_cached responses).2.1.ss_rate_limit_hits = 0) := by
  refine ⟨?_, ?_, ?_, ?_⟩
  · intro b rest
    rfl
  · intro b1 b2 rest
    rfl
  · intro b1 b2 b3 rest
    rfl
  · intro responses
    unfold ss_get_cached
    rcases hA : adapterGet 2 responses with ⟨res, n⟩
    cases res with
    | error e => simp [hA]
    | ok cb =>
      obtain ⟨code, body⟩ := cb
      have hnf : code ∉ retryForcelist :=
        adapterGet_ok_not_forcelisted responses 2 code body n hA
      have h429 : ¬(code = 429) := by
        intro heq
        exact hnf (by rw [heq]; decide)
      simp only [hA]
      by_cases h200 : code = 200
      · simp [h200]
      · by_cases h404 : code = 404
        · simp [h200, h429, h404]
        · simp [h200, h429, h404]

/-! ## Batch counters (claim C5) -/

theorem scrape_papers_foldl_aux :
    ∀ (envs : List ScrapeEnv) (a s f : Nat),
      envs.foldl
        (fun st env =>
          let ok := scrape_single_paper_safe env
          (⟨st.papers_attempted + 1,
            st.papers_successful + (if ok then 1 else 0),
            st.papers_failed + (if ok then 0 else 1)⟩ : BatchStats))
        ⟨a, s, f⟩ =
      ⟨a + envs.length, s + envs.countP scrape_single_paper_safe,
       f + envs.countP (fun e => !scrape_single_paper_safe e)⟩ := by
  intro envs
  induction envs with
  | nil => intro a s f; simp
  | cons e rest ih =>
    intro a s f
    rw [List.foldl_cons, ih, List.countP_cons, List.countP_cons]
    by_cases hok : scrape_single_paper_safe e = true
    · simp only [hok, List.length_cons, BatchStats.mk.injEq]
      simp [hok]
      omega
    · have hok2 : scrape_single_paper_safe e = false := by
        cases hx : scrape_single_paper_safe e
        · rfl
        · exact absurd hx hok
      simp only [hok2, List.length_cons, BatchStats.mk.injEq]
      simp [hok2]
      omega

theorem scrape_papers_counts (envs : List ScrapeEnv) :
    scrape_papers envs =
      ⟨envs.length, envs.countP scrape_single_paper_safe,
       envs.countP (fun e => !scrape_single_paper_safe e)⟩ := by
  unfold scrape_papers
  rw [scrape_papers_foldl_aux envs 0 0 0]
  simp

theorem countP_add_countP_not {α : Type} (q : α → Bool) :
    ∀ l : List α, l.countP q + l.countP (fun x => !q x) = l.length := by
  intro l
  induction l with
  | nil => rfl
  | cons x xs ih =>
    rw [List.countP_cons, List.countP_cons, List.length_cons]
    by_cases hq : q x = true
    · simp [hq]
      omega
    · have hq2 : q x = false := by
        cases hx : q x
        · rfl
        · exact absurd hx hq
      simp [hq2]
      omega

/-- Claim C5: the batch loop awaits every submitted paper (attempted
    equals the number of papers for every outcome pattern), the counters
    always satisfy attempted equals successful plus failed, and
    inserting one paper into a batch changes the counters only by that
    paper's own contribution - in particular a hard-failing paper adds
    exactly 1 to failed and leaves the other papers' contributions
    untouched, as witnessed concretely by a batch of one failing and one
    succeeding paper producing attempted 2, successful 1, failed 1. -/
theorem batch_isolation_counts :
    (∀ envs : List ScrapeEnv,
        (scrape_papers envs).papers_attempted = envs.length
        ∧ (scrape_papers envs).papers_attempted =
            (scrape_papers envs).papers_successful + (scrape_papers envs).papers_failed)
    ∧ (∀ (l1 l2 : List ScrapeEnv) (e : ScrapeEnv),
        scrape_papers (l1 ++ e :: l2) =
          ⟨(scrape_papers (l1 ++ l2)).papers_attempted + 1,
           (scrape_papers (l1 ++ l2)).papers_successful +
             (if scrape_single_paper_safe e then 1 else 0),
           (scrape_papers (l1 ++ l2)).papers_failed +
             (if scrape_single_paper_safe e then 0 else 1)⟩)
    ∧ scrape_single_paper_safe envC5fail = false
    ∧ scrape_papers [envC5fail, envC5ok] = ⟨2, 1, 1⟩ := by
  refine ⟨?_, ?_, rfl, rfl⟩
  · intro envs
    rw [scrape_papers_counts]
    exact ⟨rfl, (countP_add_countP_not scrape_single_paper_safe envs).symm⟩
  · intro l1 l2 e
    rw [scrape_papers_counts, scrape_papers_counts]
    rw [List.countP_append, List.countP_append, List.countP_cons, List.countP_cons]
    simp only [List.length_append, List.length_cons, BatchStats.mk.injEq]
    by_cases hok : scrape_single_paper_safe e = true
    · simp [hok]
      omega
    · have hok2 : scrape_single_paper_safe e = false := by
        cases hx : scrape_single_paper_safe e
        · rfl
        · exact absurd hx hok
      simp [hok2]
      omega

/-! ## Trace structure of one paper's orchestration (claims C2, C3, C10) -/

theorem mem_of_getElem_some {α : Type} {l : List α} {i : Nat} {a : α}
    (h : l[i]? = some a) : a ∈ l := by
  obtain ⟨hlt, heq⟩ := List.getElem?_eq_some.mp h
  rw [← heq]
  exact List.getElem_mem hlt

theorem fetch_events_eq (env : ScrapeEnv) :
    fetch_events env =
      Event.ensureDir :: Event.fetchRefs :: Event.fetchMeta none ::
        (if (meta_first env).1.isSome then []
         else [Event.fetchMeta (refs_result env).2]) := rfl

theorem fetch_events_no_download (env : ScrapeEnv) :
    ∀ e ∈ fetch_events env, isDownloadEv e = false := by
  intro e he
  rw [fetch_events_eq] at he
  simp only [List.mem_cons] at he
  rcases he with rfl | rfl | rfl | h
  · rfl
  · rfl
  · rfl
  · by_cases hs : (meta_first env).1.isSome = true
    · rw [if_pos hs] at h
      cases h
    · rw [if_neg hs] at h
      simp only [List.mem_cons, List.not_mem_nil, or_false] at h
      subst h
      rfl

theorem scrape_error_eq (env : ScrapeEnv) (h : (meta_resolved env).1 = none) :
    scrape_single_paper env = (Except.error (), fetch_events env) := by
  simp [scrape_single_paper, h]

theorem scrape_ok_snd (env : ScrapeEnv) (m : PaperMetadata)
    (h : (meta_resolved env).1 = some m) :
    (scrape_single_paper env).2 =
      fetch_events env ++ [Event.saveMetadata, Event.saveReferences] ++
        (meta_resolved env).2.map Event.download := by
  simp [scrape_single_paper, h]

theorem scrape_ok_fst (env : ScrapeEnv) (m : PaperMetadata)
    (h : (meta_resolved env).1 = some m) :
    (scrape_single_paper env).1 ≠ Except.error () := by
  simp [scrape_single_paper, h]

theorem filter_fetchMeta_map_download (l : List Nat) :
    (l.map Event.download).filter isFetchMetaEv = [] := by
  induction l with
  | nil => rfl
  | cons x xs ih => simp [List.filter_cons, isFetchMetaEv, ih]

/-- Claim C2: when the concurrent metadata fetch yields no metadata the
    orchestrator performs exactly one more metadata fetch, synchronously,
    carrying the venue already obtained from the reference fetch (the
    filtered event trace shows exactly one initial fetch with no
    override, plus the retry with the reference venue exactly when the
    first result was empty); the run fails exactly when the first fetch
    yields nothing and the retry's primary lookup also finds no entry;
    and the metadata fetch returns a record exactly when the primary
    entry is present, for every outcome of the venue and revision-date
    enrichment, so enrichment failures never fail the paper. -/
theorem metadata_retry_once_and_hard_failure :
    (∀ env : ScrapeEnv,
        (scrape_single_paper env).2.filter isFetchMetaEv =
          Event.fetchMeta none ::
            (if (meta_first env).1.isSome then []
             else [Event.fetchMeta (refs_result env).2]))
    ∧ (∀ env : ScrapeEnv,
        ((scrape_single_paper env).1 = Except.error ()) ↔
          ((meta_first env).1 = none ∧ env.entryRetry = none))
    ∧ (∀ (entry : Option ArxivEntry) (discovered : List Nat) (ssVenue : VenueResp)
         (revised : List String) (vo : Option String),
        (fetch_metadata_with_complete_versions entry discovered ssVenue revised vo).1.isSome
          = entry.isSome) := by
  refine ⟨?_, ?_, ?_⟩
  · intro env
    have hfe : (fetch_events env).filter isFetchMetaEv =
        Event.fetchMeta none ::
          (if (meta_first env).1.isSome then []
           else [Event.fetchMeta (refs_result env).2]) := by
      rw [fetch_events_eq]
      by_cases hs : (meta_first env).1.isSome = true
      · rw [if_pos hs]
        simp [List.filter_cons, isFetchMetaEv]
      · rw [if_neg hs]
        simp [List.filter_cons, isFetchMetaEv]
    cases hres : (meta_resolved env).1 with
    | none =>
      rw [scrape_error_eq env hres]
      exact hfe
    | some m =>
      rw [scrape_ok_snd env m hres, List.filter_append, List.filter_append]
      rw [filter_fetchMeta_map_download]
      rw [show ([Event.saveMetadata, Event.saveReferences]).filter isFetchMetaEv = []
          from rfl]
      rw [hfe]
      simp
  · intro env
    cases hm : (meta_first env).1 with
    | some m =>
      have hres : (meta_resolved env).1 = some m := by
        simp [meta_resolved, hm]
      constructor
      · intro herr
        exact absurd herr (scrape_ok_fst env m hres)
      · rintro ⟨hcontra, -⟩
        cases hcontra
    | none =>
      cases hr : env.entryRetry with
      | none =>
        have hres : (meta_resolved env).1 = none := by
          simp [meta_resolved, hm, hr, fetch_metadata_with_complete_versions]
        rw [scrape_error_eq env hres]
        simp
      | some a =>
        have hres : (meta_resolved env).1 =
            some ((fetch_metadata_with_complete_versions (some a) env.discoveredRetry
              env.ssVenueRetry env.revisedRetry (refs_result env).2).1.getD
                ⟨a.title, a.authors, a.published.getD "", "", env.revisedRetry⟩) := by
          simp [meta_resolved, hm, hr, fetch_metadata_with_complete_versions]
        constructor
        · intro herr
          exact absurd herr (scrape_ok_fst env _ hres)
        · rintro ⟨-, hcontra⟩
          cases hcontra
  · intro entry discovered ssVenue revised vo
    cases entry <;> simp [fetch_metadata_with_complete_versions]

/-- Claim C3: in every paper run, whenever a download event occurs in
    the trace, both the metadata save and the reference-mapping save
    occur at strictly earlier positions: persistence happens before
    every download of that paper. -/
theorem persistence_before_downloads :
    ∀ (env : ScrapeEnv) (i v : Nat),
      ((scrape_single_paper env).2)[i]? = some (Event.download v) →
      ∃ jm jr : Nat, jm < i ∧ jr < i ∧
        ((scrape_single_paper env).2)[jm]? = some Event.saveMetadata ∧
        ((scrape_single_paper env).2)[jr]? = some Event.saveReferences := by
  intro env i v hi
  cases hres : (meta_resolved env).1 with
  | none =>
    exfalso
    have htr : (scrape_single_paper env).2 = fetch_events env := by
      rw [scrape_error_eq env hres]
    rw [htr] at hi
    have hmem : Event.download v ∈ fetch_events env := mem_of_getElem_some hi
    have := fetch_events_no_download env _ hmem
    simp [isDownloadEv] at this
  | some m =>
    have htr := scrape_ok_snd env m hres
    set P := fetch_events env ++ [Event.saveMetadata, Event.saveReferences] with hP
    have htr2 : (scrape_single_paper env).2 =
        P ++ (meta_resolved env).2.map Event.download := htr
    rw [htr2] at hi ⊢
    have hlenP : P.length = (fetch_events env).length + 2 := by
      rw [hP, List.length_append]
      rfl
    have hige : ¬ i < P.length := by
      intro hlt
      rw [List.getElem?_append, if_pos hlt] at hi
      have hmem : Event.download v ∈ P := mem_of_getElem_some hi
      rw [hP, List.mem_append] at hmem
      rcases hmem with hmem | hmem
      · have := fetch_events_no_download env _ hmem
        simp [isDownloadEv] at this
      · simp only [List.mem_cons, List.not_mem_nil, or_false] at hmem
        rcases hmem with h | h <;> cases h
    refine ⟨(fetch_events env).length, (fetch_events env).length + 1, ?_, ?_, ?_, ?_⟩
    · omega
    · omega
    · rw [hP, List.append_assoc, List.getElem?_append_right (Nat.le_refl _)]
      simp
    · rw [hP, List.append_assoc,
        List.getElem?_append_right (by omega : (fetch_events env).length ≤
          (fetch_events env).length + 1)]
      simp

/-- Witness for claim C3 at the concrete environment envDownloadEx: the
    download of revision 1 sits at trace position 5, after the metadata
    and reference saves. -/
theorem persistence_before_downloads_witness :
    ∃ jm jr : Nat, jm < 5 ∧ jr < 5 ∧
      ((scrape_single_paper envDownloadEx).2)[jm]? = some Event.saveMetadata ∧
      ((scrape_single_paper envDownloadEx).2)[jr]? = some Event.saveReferences :=
  persistence_before_downloads envDownloadEx 5 1 (by decide)

/-- Claim C10: in every paper run the first trace event is the creation
    of the per-paper directory (before either network fetch is issued),
    and a run that fails hard contains no metadata or reference save
    events while the directory-creation event is still in its trace: a
    paper-level failure leaves the created directory behind with nothing
    persisted in it. -/
theorem dir_created_first_and_failure_not_atomic :
    ∀ env : ScrapeEnv,
      ((scrape_single_paper env).2).head? = some Event.ensureDir
      ∧ ((scrape_single_paper env).1 = Except.error () →
          Event.saveMetadata ∉ (scrape_single_paper env).2
          ∧ Event.saveReferences ∉ (scrape_single_paper env).2
          ∧ Event.ensureDir ∈ (scrape_single_paper env).2) := by
  intro env
  have hfe_not_save : ∀ e ∈ fetch_events env,
      e ≠ Event.saveMetadata ∧ e ≠ Event.saveReferences := by
    intro e he
    rw [fetch_events_eq] at he
    simp only [List.mem_cons] at he
    rcases he with rfl | rfl | rfl | h
    · exact ⟨by simp, by simp⟩
    · exact ⟨by simp, by simp⟩
    · exact ⟨by simp, by simp⟩
    · by_cases hs : (meta_first env).1.isSome = true
      · rw [if_pos hs] at h
        cases h
      · rw [if_neg hs] at h
        simp only [List.mem_cons, List.not_mem_nil, or_false] at h
        subst h
        exact ⟨by simp, by simp⟩
  cases hres : (meta_resolved env).1 with
  | none =>
    have htr : (scrape_single_paper env).2 = fetch_events env := by
      rw [scrape_error_eq env hres]
    constructor
    · rw [htr, fetch_events_eq]
      rfl
    · intro _
      refine ⟨?_, ?_, ?_⟩
      · rw [htr]
        intro hmem
        exact (hfe_not_save _ hmem).1 rfl
      · rw [htr]
        intro hmem
        exact (hfe_not_save _ hmem).2 rfl
      · rw [htr, fetch_events_eq]
        exact List.mem_cons_self _ _
  | some m =>
    constructor
    · rw [scrape_ok_snd env m hres, fetch_events_eq]
      rfl
    · intro herr
      exact absurd herr (scrape_ok_fst env m hres)

/-- Witness for claim C10 at the concrete failing environment envFailEx:
    the directory event leads the trace, the run fails, nothing was
    saved, and the directory event is present. -/
theorem dir_created_first_and_failure_not_atomic_witness :
    ((scrape_single_paper envFailEx).2).head? = some Event.ensureDir
    ∧ (Event.saveMetadata ∉ (scrape_single_paper envFailEx).2
       ∧ Event.saveReferences ∉ (scrape_single_paper envFailEx).2
       ∧ Event.ensureDir ∈ (scrape_single_paper envFailEx).2) :=
  ⟨(dir_created_first_and_failure_not_atomic envFailEx).1,
   (dir_created_first_and_failure_not_atomic envFailEx).2 (by rfl)⟩

/-! ## Reference filtering (claim C6) -/

theorem build_ref_isSome (dOracle : String → String) (ref : RawRef) (aid : String) :
    (build_reference_metadata_accurate dOracle ref aid).isSome = true ↔
      ref.title ≠ "" := by
  unfold build_reference_metadata_accurate
  by_cases h : ref.title = ""
  · simp [h]
  · simp [h]

/-- Claim C6: a raw reference entry contributes an entry to the returned
    reference mapping exactly when an id is extracted (external-ids keys
    in priority order, then the abs and pdf URL regexes), the extracted
    id validates against the id-format pattern after stripping a
    trailing revision suffix, and the entry's title is nonempty.  The
    spec's worked examples hold: an ArXiv external id yields the
    dash-form key, a URL-only reference yields its dash-form key, a
    titleless reference is dropped even though its id extracts and
    validates, and when both sources are present the external id wins
    over the URL. -/
theorem reference_entry_iff :
    (∀ (dOracle : String → String) (ref : RawRef),
        (process_reference_entry dOracle ref).isSome = true ↔
          ∃ aid, extract_arxiv_id_comprehensive ref = some aid
            ∧ is_valid_arxiv_id_str aid = true ∧ ref.title ≠ "")
    ∧ references_mapping dOracleEmpty [refExA, refExB, refExC] =
        [(keyExA, recExA), (keyExB, recExB)]
    ∧ process_reference_entry dOracleEmpty refExC = none
    ∧ extract_arxiv_id_comprehensive refExC = some "2401.00003"
    ∧ is_valid_arxiv_id_str "2401.00003" = true
    ∧ extract_arxiv_id_comprehensive refExD = some "2401.00001" := by
  refine ⟨?_, by decide, by decide, by decide, by decide, by decide⟩
  intro dOracle ref
  unfold process_reference_entry
  cases hext : extract_arxiv_id_comprehensive ref with
  | none =>
    simp
  | some a =>
    dsimp only
    by_cases hv : is_valid_arxiv_id_str a = true
    · rw [if_pos hv]
      cases hb : build_reference_metadata_accurate dOracle ref a with
      | none =>
        have htitle : ref.title = "" := by
          by_cases ht : ref.title = ""
          · exact ht
          · have := (build_ref_isSome dOracle ref a).mpr ht
            rw [hb] at this
            cases this
        simp [htitle, hv]
      | some d =>
        have htitle : ref.title ≠ "" := by
          have : (build_reference_metadata_accurate dOracle ref a).isSome = true := by
            rw [hb]
            rfl
          exact (build_ref_isSome dOracle ref a).mp this
        simp [htitle, hv]
    · have hv2 : is_valid_arxiv_id_str a = false := by
        cases hx : is_valid_arxiv_id_str a
        · rfl
        · exact absurd hx hv
      rw [if_neg hv]
      simp [hv2]

/-! ## Idempotence of id normalization (claim C9) -/

theorem digit_ne_dot {c : Char} (h : c.isDigit = true) : c ≠ '.' := by
  intro hc
  subst hc
  exact absurd h (by decide)

theorem digit_ne_colon {c : Char} (h : c.isDigit = true) : c ≠ ':' := by
  intro hc
  subst hc
  exact absurd h (by decide)

theorem digit_not_space {c : Char} (h : c.isDigit = true) : isPySpace c = false := by
  cases hs : isPySpace c
  · rfl
  · exfalso
    simp only [isPySpace, Bool.or_eq_true, decide_eq_true_eq] at hs
    rcases hs with ((((rfl | rfl) | rfl) | rfl) | rfl) | rfl <;>
      exact absurd h (by decide)

theorem removeArXivAux_eq_self :
    ∀ (fuel : Nat) (cs : List Char), cs.length ≤ fuel →
      (∀ c ∈ cs, c ≠ ':') → removeArXivAux fuel cs = cs := by
  intro fuel
  induction fuel with
  | zero =>
    intro cs hlen _
    have hnil : cs = [] := List.eq_nil_of_length_eq_zero (Nat.le_zero.mp hlen)
    subst hnil
    rfl
  | succ f ih =>
    intro cs hlen hmem
    cases cs with
    | nil => rfl
    | cons c cs2 =>
      have hpre : arXivColonPat.isPrefixOf (c :: cs2) = false := by
        cases hp : arXivColonPat.isPrefixOf (c :: cs2)
        · rfl
        · exfalso
          have hsub : arXivColonPat ⊆ c :: cs2 :=
            (List.isPrefixOf_iff_prefix.mp hp).sublist.subset
          have hcolon : ':' ∈ arXivColonPat := by decide
          exact hmem ':' (hsub hcolon) rfl
      show removeArXivAux (f + 1) (c :: cs2) = c :: cs2
      simp only [removeArXivAux, hpre, Bool.false_eq_true, if_false]
      rw [ih cs2 (by simpa using hlen) (fun x hx => hmem x (List.mem_cons_of_mem c hx))]

theorem removeArXiv_eq_self (cs : List Char) (h : ∀ c ∈ cs, c ≠ ':') :
    removeArXiv cs = cs :=
  removeArXivAux_eq_self cs.length cs (Nat.le_refl _) h

theorem pyStrip_eq_self (cs : List Char) (h : ∀ c ∈ cs, isPySpace c = false) :
    pyStrip cs = cs := by
  unfold pyStrip
  rw [dropWhile_eq_self_of_head isPySpace cs h]
  rw [dropWhile_eq_self_of_head isPySpace cs.reverse
    (fun x hx => h x (List.mem_reverse.mp hx))]
  exact List.reverse_reverse cs

theorem subVSuffix_sep (d1 d2 : List Char) (sep : Char)
    (hsd : sep.isDigit = false) (hsv : sep ≠ 'v') (hd2 : d2 ≠ [])
    (h2 : ∀ c ∈ d2, c.isDigit = true) :
    subVSuffix (d1 ++ sep :: d2) = d1 ++ sep :: d2 := by
  have hrev : (d1 ++ sep :: d2).reverse = d2.reverse ++ sep :: d1.reverse := by
    rw [List.reverse_append, List.reverse_cons, List.append_assoc]
    rfl
  have hds : (d1 ++ sep :: d2).reverse.takeWhile Char.isDigit = d2.reverse := by
    rw [hrev,
      takeWhile_append_all Char.isDigit d2.reverse (sep :: d1.reverse)
        (fun x hx => h2 x (List.mem_reverse.mp hx)),
      takeWhile_cons_false Char.isDigit sep d1.reverse hsd]
    simp
  unfold subVSuffix
  rw [hds]
  have hne : ¬(d2.reverse.isEmpty = true) := by
    intro hr
    exact hd2 (List.reverse_eq_nil_iff.mp (List.isEmpty_iff.mp hr))
  rw [if_neg hne, hrev, List.drop_left]
  split
  · rename_i rest heq
    exfalso
    injection heq with h1 _
    exact hsv h1
  · rfl

theorem subVSuffix_v (pre ks : List Char) (hks : ks ≠ [])
    (hdig : ∀ c ∈ ks, c.isDigit = true) :
    subVSuffix (pre ++ 'v' :: ks) = pre := by
  have hrev : (pre ++ 'v' :: ks).reverse = ks.reverse ++ 'v' :: pre.reverse := by
    rw [List.reverse_append, List.reverse_cons, List.append_assoc]
    rfl
  have hds : (pre ++ 'v' :: ks).reverse.takeWhile Char.isDigit = ks.reverse := by
    rw [hrev,
      takeWhile_append_all Char.isDigit ks.reverse ('v' :: pre.reverse)
        (fun x hx => hdig x (List.mem_reverse.mp hx)),
      takeWhile_cons_false Char.isDigit 'v' pre.reverse (by decide)]
    simp
  unfold subVSuffix
  rw [hds]
  have hne : ¬(ks.reverse.isEmpty = true) := by
    intro hr
    exact hks (List.reverse_eq_nil_iff.mp (List.isEmpty_iff.mp hr))
  rw [if_neg hne, hrev, List.drop_left]
  exact List.reverse_reverse pre

theorem splitFirstDot_before (d1 : List Char) (h : ∀ c ∈ d1, c ≠ '.') :
    ∀ d2 : List Char, splitFirstDot (d1 ++ '.' :: d2) = some (d1, d2) := by
  induction d1 with
  | nil =>
    intro d2
    simp [splitFirstDot]
  | cons c cs ih =>
    intro d2
    have hc : ¬(c = '.') := h c (List.mem_cons_self c cs)
    show splitFirstDot (c :: (cs ++ '.' :: d2)) = some (c :: cs, d2)
    simp only [splitFirstDot, if_neg hc,
      ih (fun x hx => h x (List.mem_cons_of_mem c hx)) d2]

theorem splitFirstDot_none (cs : List Char) (h : ∀ c ∈ cs, c ≠ '.') :
    splitFirstDot cs = none := by
  induction cs with
  | nil => rfl
  | cons c cs2 ih =>
    have hc : ¬(c = '.') := h c (List.mem_cons_self c cs2)
    simp only [splitFirstDot, if_neg hc,
      ih (fun x hx => h x (List.mem_cons_of_mem c hx))]

theorem format_of_dot_shape (d1 d2 suffix : List Char)
    (h1 : ∀ c ∈ d1, c.isDigit = true) (hd2 : d2 ≠ [])
    (h2 : ∀ c ∈ d2, c.isDigit = true)
    (hsuf : suffix = [] ∨
      ∃ ks, suffix = 'v' :: ks ∧ ks ≠ [] ∧ ∀ c ∈ ks, c.isDigit = true) :
    format_yymm_id (d1 ++ '.' :: (d2 ++ suffix)) = d1 ++ '-' :: d2 := by
  have hmem : ∀ c ∈ d1 ++ '.' :: (d2 ++ suffix),
      c.isDigit = true ∨ c = '.' ∨ c = 'v' := by
    intro c hc
    rw [List.mem_append, List.mem_cons, List.mem_append] at hc
    rcases hc with hc | hc | hc | hc
    · exact Or.inl (h1 c hc)
    · exact Or.inr (Or.inl hc)
    · exact Or.inl (h2 c hc)
    · rcases hsuf with rfl | ⟨ks, rfl, _, hks⟩
      · cases hc
      · rcases List.mem_cons.mp hc with rfl | hc2
        · exact Or.inr (Or.inr rfl)
        · exact Or.inl (hks c hc2)
  have hnocolon : ∀ c ∈ d1 ++ '.' :: (d2 ++ suffix), c ≠ ':' := by
    intro c hc
    rcases hmem c hc with hd | rfl | rfl
    · exact digit_ne_colon hd
    · decide
    · decide
  have hnospace : ∀ c ∈ d1 ++ '.' :: (d2 ++ suffix), isPySpace c = false := by
    intro c hc
    rcases hmem c hc with hd | rfl | rfl
    · exact digit_not_space hd
    · decide
    · decide
  have hsub : subVSuffix (d1 ++ '.' :: (d2 ++ suffix)) = d1 ++ '.' :: d2 := by
    rcases hsuf with rfl | ⟨ks, rfl, hks, hksd⟩
    · rw [List.append_nil]
      exact subVSuffix_sep d1 d2 '.' (by decide) (by decide) hd2 h2
    · have hassoc : d1 ++ '.' :: (d2 ++ 'v' :: ks) =
          (d1 ++ '.' :: d2) ++ 'v' :: ks := by
        rw [List.append_assoc]
        rfl
      rw [hassoc]
      exact subVSuffix_v (d1 ++ '.' :: d2) ks hks hksd
  show format_yymm_id (d1 ++ '.' :: (d2 ++ suffix)) = d1 ++ '-' :: d2
  unfold format_yymm_id
  dsimp only
  rw [removeArXiv_eq_self _ hnocolon, pyStrip_eq_self _ hnospace, hsub,
    splitFirstDot_before d1 (fun c hc => digit_ne_dot (h1 c hc)) d2]

theorem format_fixpoint_dash (d1 d2 : List Char)
    (h1 : ∀ c ∈ d1, c.isDigit = true) (hd2 : d2 ≠ [])
    (h2 : ∀ c ∈ d2, c.isDigit = true) :
    format_yymm_id (d1 ++ '-' :: d2) = d1 ++ '-' :: d2 := by
  have hmem : ∀ c ∈ d1 ++ '-' :: d2, c.isDigit = true ∨ c = '-' := by
    intro c hc
    rw [List.mem_append, List.mem_cons] at hc
    rcases hc with hc | hc | hc
    · exact Or.inl (h1 c hc)
    · exact Or.inr hc
    · exact Or.inl (h2 c hc)
  have hnocolon : ∀ c ∈ d1 ++ '-' :: d2, c ≠ ':' := by
    intro c hc
    rcases hmem c hc with hd | rfl
    · exact digit_ne_colon hd
    · decide
  have hnospace : ∀ c ∈ d1 ++ '-' :: d2, isPySpace c = false := by
    intro c hc
    rcases hmem c hc with hd | rfl
    · exact digit_not_space hd
    · decide
  have hnodot : ∀ c ∈ d1 ++ '-' :: d2, c ≠ '.' := by
    intro c hc
    rcases hmem c hc with hd | rfl
    · exact digit_ne_dot hd
    · decide
  unfold format_yymm_id
  dsimp only
  rw [removeArXiv_eq_self _ hnocolon, pyStrip_eq_self _ hnospace,
    subVSuffix_sep d1 d2 '-' (by decide) (by decide) hd2 h2,
    splitFirstDot_none _ hnodot]

/-- Claim C9 amended: id-format normalization is idempotent on every id
    of the shape the pipeline feeds it - a nonempty digit run, a dot, a
    nonempty digit run, optionally followed by a revision suffix of v
    and digits.  (On arbitrary strings idempotence fails; see the
    counterexample with several dots.) -/
theorem format_idempotent_on_simple_ids :
    ∀ cs : List Char, isSimpleDotId cs = true →
      format_yymm_id (format_yymm_id cs) = format_yymm_id cs := by
  intro cs h
  unfold isSimpleDotId at h
  split at h
  case h_2 => exact absurd h (by simp)
  case h_1 rest heq =>
    rw [Bool.and_eq_true, Bool.and_eq_true] at h
    obtain ⟨⟨hd1e, hd2e⟩, hmatch⟩ := h
    set d1 := cs.takeWhile Char.isDigit with hd1def
    set d2 := rest.takeWhile Char.isDigit with hd2def
    have hd1ne : d1 ≠ [] := by
      intro hx
      rw [hx] at hd1e
      cases hd1e
    have hd2ne : d2 ≠ [] := by
      intro hx
      rw [hx] at hd2e
      cases hd2e
    have hd1dig : ∀ c ∈ d1, c.isDigit = true := by
      intro c hc
      rw [hd1def] at hc
      exact List.mem_takeWhile_imp hc
    have hd2dig : ∀ c ∈ d2, c.isDigit = true := by
      intro c hc
      rw [hd2def] at hc
      exact List.mem_takeWhile_imp hc
    have hcs : cs = d1 ++ '.' :: rest := by
      conv_lhs => rw [← List.takeWhile_append_dropWhile Char.isDigit cs]
      rw [heq, ← hd1def]
    have hrest : rest = d2 ++ rest.dropWhile Char.isDigit := by
      conv_lhs => rw [← List.takeWhile_append_dropWhile Char.isDigit rest]
    split at hmatch
    case h_3 => exact absurd hmatch (by simp)
    case h_1 heq2 =>
      have hrest2 : rest = d2 := by
        rw [hrest, heq2, List.append_nil]
      have hcs2 : cs = d1 ++ '.' :: d2 := by
        rw [hcs, hrest2]
      have hfmt : format_yymm_id cs = d1 ++ '-' :: d2 := by
        have hshape := format_of_dot_shape d1 d2 [] hd1dig hd2ne hd2dig (Or.inl rfl)
        rw [List.append_nil] at hshape
        rw [hcs2]
        exact hshape
      rw [hfmt]
      exact format_fixpoint_dash d1 d2 hd1dig hd2ne hd2dig
    case h_2 ks heq2 =>
      rw [Bool.and_eq_true] at hmatch
      obtain ⟨hksne0, hksall⟩ := hmatch
      have hksne : ks ≠ [] := by
        intro hx
        rw [hx] at hksne0
        cases hksne0
      have hksd : ∀ c ∈ ks, c.isDigit = true := by
        intro c hc
        exact List.all_eq_true.mp hksall c hc
      have hcs2 : cs = d1 ++ '.' :: (d2 ++ 'v' :: ks) := by
        rw [hcs]
        conv_lhs => rw [hrest, heq2]
      have hfmt : format_yymm_id cs = d1 ++ '-' :: d2 := by
        rw [hcs2]
        exact format_of_dot_shape d1 d2 ('v' :: ks) hd1dig hd2ne hd2dig
          (Or.inr ⟨ks, rfl, hksne, hksd⟩)
      rw [hfmt]
      exact format_fixpoint_dash d1 d2 hd1dig hd2ne hd2dig

/-- Witness for the amended claim C9 at the spec's example id: the id
    with a revision suffix is well-formed, normalization of it is a
    fixed point of a second application, and its normal form is the
    dash-form id from the spec. -/
theorem format_idempotent_on_simple_ids_witness :
    isSimpleDotId exIdV2.data = true
    ∧ format_yymm_id_str (format_yymm_id_str exIdV2) = format_yymm_id_str exIdV2
    ∧ format_yymm_id_str exIdV2 = exIdDash :=
  ⟨by decide,
   congrArg String.mk (format_idempotent_on_simple_ids exIdV2.data (by decide)),
   by decide⟩

/-- Claim C9 counterexample: on the id string a.b.c (several dots, not
    of the shape the pipeline produces) applying format_yymm_id twice
    differs from applying it once - the first pass turns only the first
    dot into a dash, so each pass converts one more dot. -/
theorem format_idempotence_counterexample :
    format_yymm_id_str (format_yymm_id_str exDotsId) ≠ format_yymm_id_str exDotsId := by
  decide
